import Mathlib

/-!
Verification development for the figure-generation script `hunter.py`.

The script is sequential glue: it loads (or regenerates and caches) a
neuron simulation, reduces the per-segment current traces to peak-to-peak
amplitudes, estimates an extracellular potential field on per-panel grids,
and renders a main panel plus two zoom insets.

The embedding below models the script as a pure trace-producing function
over an explicit environment (cache presence, simulator output, cached
data).  Numeric arrays are lists of rationals; the external field
estimator, grid builder, contour renderer and color normalization are
collaborators outside this repository and are modelled from the spec where
noted.
-/

namespace Hunter

/-- One record of `cell.get_seg_coords()`: segment endpoints in the plotted
plane, diameter and length (source fields `x0,y0,x1,y1,diam,L`). -/
structure Seg where
  x0 : ℚ
  y0 : ℚ
  x1 : ℚ
  y1 : ℚ
  diam : ℚ
  L : ℚ
deriving DecidableEq, Inhabited

/-- Reduction `arr.min()` of a numpy 1-D array.  numpy raises on an empty
array; the script never reduces an empty array, so the empty case returns
the default element. -/
def aMin {α : Type} [Min α] [Inhabited α] : List α → α
  | [] => default
  | x :: xs => xs.foldl min x

/-- Reduction `arr.max()` of a numpy 1-D array (empty case as in `aMin`). -/
def aMax {α : Type} [Max α] [Inhabited α] : List α → α
  | [] => default
  | x :: xs => xs.foldl max x

/-- Axis-0 reduction `M.max(0)` of a 2-D numpy array stored as a list of
rows: the elementwise maximum across rows. -/
def amax0 {α : Type} [Max α] : List (List α) → List α
  | [] => []
  | [r] => r
  | r :: rs => List.zipWith max r (amax0 rs)

/-- Axis-0 reduction `M.min(0)`: the elementwise minimum across rows. -/
def amin0 {α : Type} [Min α] : List (List α) → List α
  | [] => []
  | [r] => r
  | r :: rs => List.zipWith min r (amin0 rs)

/-- Peak-to-peak reduction over the time axis, `M.max(0) - M.min(0)`
(source lines 29 and 76). -/
def p2pOf {α : Type} [Max α] [Min α] [Sub α] (M : List (List α)) : List α :=
  List.zipWith (fun a b => a - b) (amax0 M) (amin0 M)

/-- Column `i` of a 2-D array stored as a list of rows. -/
def column {α : Type} [Inhabited α] (M : List (List α)) (i : ℕ) : List α :=
  M.map (fun r => r.getD i default)

/-! ### External collaborators (the `eap` library and matplotlib)

These functions live outside this repository; only their call sites are in
`hunter.py`.  They are modelled from the spec, as noted on each one. -/

/-- Modelled from the spec: the Grid Builder axis, `n` evenly spaced
sample positions from `a` to `b` inclusive of both bounds. -/
def linspace (a b : ℚ) (n : ℕ) : List ℚ :=
  if n ≤ 1 then [a]
  else (List.range n).map (fun i => a + (b - a) * i / (n - 1))

/-- Modelled from the spec: `field.calc_grid`, the Grid Builder.  It lays a
regular 2-D lattice over the bounding rectangle with `n` samples per
axis, both bounds included. -/
def calc_grid (xr yr : ℚ × ℚ) (n : ℕ) : List (ℚ × ℚ) :=
  ((linspace yr.1 yr.2 n).map (fun y => (linspace xr.1 xr.2 n).map (fun x => (x, y)))).flatten

/-- Modelled from the spec: the minimum-distance floor the Field Estimator
applies so that query points coincident with a segment do not divide by
zero.  The spec fixes no value; any positive floor fits, and none of the
claims depends on it. -/
def distFloor : ℚ := 1

/-- Distance in the plotted plane from a query point to the midpoint of a
segment, used by the point-source potential law. -/
noncomputable def segDist (s : Seg) (p : ℚ × ℚ) : ℝ :=
  Real.sqrt ((((s.x0 + s.x1) / 2 - p.1 : ℚ) : ℝ) ^ 2 + (((s.y0 + s.y1) / 2 - p.2 : ℚ) : ℝ) ^ 2)

/-- Modelled from the spec: the Field Estimator at one query point for one
time row — contributions of every segment summed under the inverse-distance
point-source law, scaled by the medium resistivity, with the
minimum-distance floor applied. -/
noncomputable def estimate_at (res : ℝ) (coords : List Seg) (row : List ℚ) (p : ℚ × ℚ) : ℝ :=
  (List.zipWith
    (fun (s : Seg) (c : ℚ) => res * (c : ℝ) / (4 * Real.pi * max (segDist s p) (distFloor : ℝ)))
    coords row).sum

/-- Modelled from the spec: `field.estimate_on_grid`.  The current input
has a time dimension, so the estimator produces one field row per
time-step, each row holding the potential at every query point.  The
script passes no resistivity at the call site, so the resistivity used
here is whatever the collaborator supplies internally. -/
noncomputable def estimate_on_grid (res : ℝ) (coords : List Seg) (I : List (List ℚ))
    (pts : List (ℚ × ℚ)) : List (List ℝ) :=
  I.map (fun row => pts.map (estimate_at res coords row))

/-- Modelled from the spec: logarithmically spaced contour levels between
a positive minimum and maximum (geometric spacing). -/
noncomputable def logLevels (lo hi : ℝ) (n : ℕ) : List ℝ :=
  (List.range n).map (fun i => Real.exp (Real.log lo + (Real.log hi - Real.log lo) * i / (n - 1)))

/-- Modelled from the spec: the unguarded level computation, which fails
when logarithmic spacing is undefined. -/
noncomputable def logLevelsChecked (lo hi : ℝ) (n : ℕ) : Except String (List ℝ) :=
  if lo ≤ 0 then .error "log spacing undefined on a nonpositive range"
  else if lo = hi then .error "log spacing undefined on a degenerate range"
  else .ok (logLevels lo hi n)

/-- Modelled from the spec: `graph.logcontour`, the Contour Renderer.  It
draws log-spaced iso-contours of the field; when the field is constant
(all-zero included, since then min equals max) it degrades gracefully,
returning an empty contour set instead of failing. -/
noncomputable def logcontour (fieldVals : List ℝ) (nc : ℕ) : Except String (List ℝ) :=
  if aMin fieldVals = aMax fieldVals then .ok []
  else logLevelsChecked (aMin fieldVals) (aMax fieldVals) nc

/-- The color normalization record built by `colors.LogNorm(vmin, vmax)`
(source line 77): it carries its two anchors. -/
structure NormSpec where
  vmin : ℚ
  vmax : ℚ
deriving DecidableEq

/-- Modelled from the spec: applying a logarithmic normalization — a
monotone map sending the anchor range to the unit interval on a log
scale, `(log v - log vmin) / (log vmax - log vmin)`. -/
noncomputable def logNormApply (nrm : NormSpec) (v : ℚ) : ℝ :=
  (Real.log (v : ℝ) - Real.log (nrm.vmin : ℝ)) / (Real.log (nrm.vmax : ℝ) - Real.log (nrm.vmin : ℝ))

/-! ### The script configuration and environment -/

/-- The module-level constants of `hunter.py` (source lines 32-44).  The
script reads them as globals; the embedding passes them explicitly so that
dependence of the output on each constant can be stated. -/
structure Config where
  dt : ℚ
  tstop : ℚ
  t0 : ℚ
  t1 : ℚ
  rho : ℚ
  cutoff : ℚ
  order : ℕ
  Nsamp : ℕ
  x_range : ℚ × ℚ
  y_range : ℚ × ℚ
deriving DecidableEq

/-- The constants exactly as the source sets them. -/
def defaultConfig : Config :=
  ⟨1 / 40, 50, 10, 25, 7 / 2, 800, 401, 30, (-550, 250), (-200, 610)⟩

/-- The three named arrays of the simulation cache file
`data/neuron_simulation_data.npz`: `coords`, `t` and `I` (rows of `I` are
time samples, columns are segments). -/
structure CacheData where
  coords : List Seg
  t : List ℚ
  I : List (List ℚ)
deriving DecidableEq

/-- The ambient world the script runs in: whether the cache file exists,
what the external simulator would return if invoked (`cell.integrate` and
`cell.get_seg_coords`), what the cache file holds if read, and the
resistivity the field-estimation collaborator uses internally (the script
passes none at the call site). -/
structure SimEnv where
  cacheExists : Bool
  simCoords : List Seg
  simT : List ℚ
  simI : List (List ℚ)
  cached : CacheData
  libRho : ℚ

/-- Boolean index `t[(t > t0) & (t < t1)]` applied to the time vector
itself (source line 58). -/
def maskT (t0 t1 : ℚ) (t : List ℚ) : List ℚ :=
  t.filter (fun x => decide (t0 < x ∧ x < t1))

/-- Boolean index `I[(t > t0) & (t < t1)]` applied along the row axis of
the current array, keeping the rows whose time sample lies in the open
window (source line 57). -/
def maskRows (t0 t1 : ℚ) (t : List ℚ) (M : List (List ℚ)) : List (List ℚ) :=
  (t.zip M).filterMap (fun q => if t0 < q.1 ∧ q.1 < t1 then some q.2 else none)

/-- The three axes the figure draws into. -/
inductive Panel where
  | main
  | zoomSoma
  | zoomAxon
deriving DecidableEq

/-- The observable actions of the script, in program order: invoking the
external simulator, writing or reading the cache file, a `logcontour`
render, a `plot_neuron` render, and saving the figure. -/
inductive Event where
  | simulate
  | cacheWrite (coords : List Seg) (I : List (List ℚ)) (t : List ℚ)
  | cacheRead
  | contour (panel : Panel) (xr yr : ℚ × ℚ) (nsamp nc : ℕ) (fieldVals : List ℝ)
  | plot_neuron (panel : Panel) (coords : List Seg) (scal : List ℚ) (nrm : NormSpec)
  | savefig

/-- The embedding of `plot_contour` (source lines 26-30): build the grid
for the given ranges at the global per-axis resolution `Nsamp`, estimate
the field on it for every time step, reduce to the per-grid-point
peak-to-peak value, and hand that field to `logcontour`. -/
noncomputable def plot_contour (cfg : Config) (libRho : ℚ) (coords : List Seg)
    (I : List (List ℚ)) (panel : Panel) (xr yr : ℚ × ℚ) (nc : ℕ) : Event :=
  let pts := calc_grid xr yr cfg.Nsamp
  let vext := estimate_on_grid (libRho : ℝ) coords I pts
  let vext_p2p := p2pOf vext
  .contour panel xr yr cfg.Nsamp nc vext_p2p

/-- The simulation block (source lines 50-64): when the cache file is
absent, invoke the simulator, restrict `I` and `t` to the open window
`(t0, t1)`, and persist `coords`, `I` and `t`; when it is present, load
the three arrays and do nothing else.  Returns the emitted events and the
data the rest of the script uses. -/
def simulatePhase (cfg : Config) (env : SimEnv) : List Event × CacheData :=
  if env.cacheExists then
    ([.cacheRead], env.cached)
  else
    let I := maskRows cfg.t0 cfg.t1 env.simT env.simI
    let t := maskT cfg.t0 cfg.t1 env.simT
    ([.simulate, .cacheWrite env.simCoords I t], ⟨env.simCoords, t, I⟩)

/-- The rendering block (source lines 66-153) as the sequence of render
calls it makes, in program order: the main-panel contour (line 72), the
main-panel morphology (line 78), the soma-zoom morphology (line 112), the
soma-zoom contour (line 116), the axon-zoom contour (line 138), the
axon-zoom morphology (line 139), and the figure save (line 153).  The
normalization is built once, at line 77, anchored at the global minimum
and maximum of the peak-to-peak array. -/
noncomputable def renderPhase (cfg : Config) (libRho : ℚ) (d : CacheData) : List Event :=
  let p2p := p2pOf d.I
  let nrm : NormSpec := ⟨aMin p2p, aMax p2p⟩
  [ plot_contour cfg libRho d.coords d.I .main cfg.x_range cfg.y_range 5
  , .plot_neuron .main d.coords p2p nrm
  , .plot_neuron .zoomSoma d.coords p2p nrm
  , plot_contour cfg libRho d.coords d.I .zoomSoma (-180, -130) (-50, 0) 5
  , plot_contour cfg libRho d.coords d.I .zoomAxon (-180, -130) (-165, -115) 5
  , .plot_neuron .zoomAxon d.coords p2p nrm
  , .savefig ]

/-- The whole script as the trace of its observable actions. -/
noncomputable def scriptTrace (cfg : Config) (env : SimEnv) : List Event :=
  (simulatePhase cfg env).1 ++ renderPhase cfg env.libRho (simulatePhase cfg env).2

/-- The script run as a fallible computation.  `hunter.py` contains no
validation, no assertion and no raise statement of its own, so the
embedded run always completes with its trace; any failure could only come
from a collaborator. -/
noncomputable def scriptRun (cfg : Config) (env : SimEnv) : Except String (List Event) :=
  .ok (scriptTrace cfg env)

/-! ### Trace projections -/

/-- Whether an event is an invocation of the external simulator. -/
def Event.isSimulate : Event → Bool
  | .simulate => true
  | _ => false

/-- Whether an event writes the cache file. -/
def Event.isCacheWrite : Event → Bool
  | .cacheWrite _ _ _ => true
  | _ => false

/-- Whether an event reads the cache file. -/
def Event.isCacheRead : Event → Bool
  | .cacheRead => true
  | _ => false

/-- Whether an event belongs to the rendering stage of the script. -/
def Event.isRender : Event → Bool
  | .contour _ _ _ _ _ _ => true
  | .plot_neuron _ _ _ _ => true
  | .savefig => true
  | _ => false

/-- The payload of a cache write. -/
def Event.writePayload : Event → Option (List Seg × List (List ℚ) × List ℚ)
  | .cacheWrite c I t => some (c, I, t)
  | _ => none

/-- The normalization argument of a morphology render. -/
def Event.neuronNorm : Event → Option NormSpec
  | .plot_neuron _ _ _ nrm => some nrm
  | _ => none

/-- The panel, coordinate and scalar arguments of a morphology render. -/
def Event.neuronArgs : Event → Option (Panel × List Seg × List ℚ)
  | .plot_neuron p c s _ => some (p, c, s)
  | _ => none

/-- The panel, ranges, per-axis sample count and contour count of a
contour render. -/
def Event.contourMeta : Event → Option (Panel × (ℚ × ℚ) × (ℚ × ℚ) × ℕ × ℕ)
  | .contour p xr yr n nc _ => some (p, xr, yr, n, nc)
  | _ => none

/-- The field handed to the contour renderer. -/
def Event.contourField : Event → Option (List ℝ)
  | .contour _ _ _ _ _ f => some f
  | _ => none

/-- Which panel a render event draws into, tagged `true` for a contour
render and `false` for a morphology render. -/
def Event.drawTag : Event → Option (Panel × Bool)
  | .contour p _ _ _ _ _ => some (p, true)
  | .plot_neuron p _ _ _ => some (p, false)
  | _ => none

/-- The segment and current arrays the rendering stage works from:
`(coords, I)` out of the simulation block. -/
def pipelineData (cfg : Config) (env : SimEnv) : CacheData :=
  (simulatePhase cfg env).2

/-! ### Claims -/

/-- C1.  When the simulation cache file is absent the pipeline invokes the
external simulator, restricts the result to the open time window, and
persists `coords`, `I` and `t` — and every cache write or simulator call
happens before the first rendering action.  When the file is present the
pipeline reads `coords`, `t` and `I` from it and performs no simulation
and no cache write. -/
theorem C1_cache_semantics (cfg : Config) (env : SimEnv) :
    ((scriptTrace cfg env).any Event.isSimulate = !env.cacheExists)
    ∧ ((scriptTrace cfg env).filterMap Event.writePayload =
        cond env.cacheExists []
          [(env.simCoords, maskRows cfg.t0 cfg.t1 env.simT env.simI,
            maskT cfg.t0 cfg.t1 env.simT)])
    ∧ ((scriptTrace cfg env).any Event.isCacheRead = env.cacheExists)
    ∧ (((scriptTrace cfg env).dropWhile (fun e => !e.isRender)).any
        (fun e => e.isCacheWrite || e.isSimulate || e.isCacheRead) = false)
    ∧ (pipelineData cfg env =
        cond env.cacheExists env.cached
          ⟨env.simCoords, maskT cfg.t0 cfg.t1 env.simT,
           maskRows cfg.t0 cfg.t1 env.simT env.simI⟩) := by
  cases h : env.cacheExists <;>
    simp [scriptTrace, simulatePhase, renderPhase, plot_contour, pipelineData, h,
      Event.isSimulate, Event.isCacheRead, Event.isCacheWrite, Event.isRender,
      Event.writePayload, List.dropWhile]

/-- C2.  The trace contains exactly three morphology renders — main panel,
soma zoom and axon zoom, in that order — and every one of them receives
the same normalization value: the logarithmic normalization anchored at
the global minimum and maximum of the per-segment peak-to-peak current
array. -/
theorem C2_single_norm (cfg : Config) (env : SimEnv) :
    ((scriptTrace cfg env).filterMap Event.neuronNorm =
      List.replicate 3
        ⟨aMin (p2pOf (pipelineData cfg env).I), aMax (p2pOf (pipelineData cfg env).I)⟩)
    ∧ ((scriptTrace cfg env).filterMap
        (fun e => (Event.neuronArgs e).map (fun a => a.1)) =
        [Panel.main, Panel.zoomSoma, Panel.zoomAxon]) := by
  cases h : env.cacheExists <;>
    simp [scriptTrace, simulatePhase, renderPhase, plot_contour, pipelineData, h,
      Event.neuronNorm, Event.neuronArgs, List.replicate]

/-- The configuration with its resistivity constant replaced. -/
def withRho (cfg : Config) (r : ℚ) : Config :=
  ⟨cfg.dt, cfg.tstop, cfg.t0, cfg.t1, r, cfg.cutoff, cfg.order, cfg.Nsamp,
   cfg.x_range, cfg.y_range⟩

/-- The sum of an elementwise combination of two lists, written as an
indexed sum over the positions both lists share. -/
theorem sum_zipWith_eq_finsetSum {α β : Type} [Inhabited α] [Inhabited β]
    (f : α → β → ℝ) :
    ∀ (l1 : List α) (l2 : List β),
      (List.zipWith f l1 l2).sum =
        ∑ i in Finset.range (min l1.length l2.length),
          f (l1.getD i default) (l2.getD i default) := by
  intro l1
  induction l1 with
  | nil => intro l2; simp
  | cons a l1 ih =>
    intro l2
    cases l2 with
    | nil => simp
    | cons b l2 =>
      simp only [List.zipWith_cons_cons, List.sum_cons, List.length_cons,
        Nat.succ_min_succ, Finset.sum_range_succ']
      rw [ih l2]
      simp [add_comm]

/-- A small concrete environment used to exercise the pipeline: the cache
file is present and holds one segment with a two-step current trace. -/
def envC3 : SimEnv :=
  ⟨true, [], [], [], ⟨[⟨0, 0, 1, 0, 1, 1⟩], [12, 13], [[1], [2]]⟩, 7 / 2⟩

/-- C3, counterexample.  The claim says the configured resistivity
`rho = 3.5` influences the rendered field.  It does not: doubling the
configured resistivity leaves the whole trace — contour fields included —
unchanged, because the script never passes `rho` to the estimator. -/
theorem C3_rho_unused_cex :
    (withRho defaultConfig 7).rho ≠ defaultConfig.rho
    ∧ scriptTrace (withRho defaultConfig 7) envC3 = scriptTrace defaultConfig envC3 := by
  refine ⟨?_, rfl⟩
  show (7 : ℚ) ≠ 7 / 2
  norm_num

/-- C3, amended.  The field values supplied to the contour renderer are
computed by the Field Estimator contract — for each query point the
contributions of every segment are summed under the inverse-distance
point-source law, and the estimate scales linearly with the resistivity
parameter — but the script calls the estimator without passing its
configured `rho = 3.5`, so the field is computed at the collaborator's
internal resistivity and the configured `rho` has no influence on the
trace. -/
theorem C3_estimator_contract :
    (∀ (res : ℝ) (coords : List Seg) (row : List ℚ) (p : ℚ × ℚ),
      estimate_at res coords row p =
        ∑ i in Finset.range (min coords.length row.length),
          res * ((row.getD i default : ℚ) : ℝ) /
            (4 * Real.pi * max (segDist (coords.getD i default) p) (distFloor : ℝ)))
    ∧ (∀ (res : ℝ) (coords : List Seg) (row : List ℚ) (p : ℚ × ℚ),
      estimate_at res coords row p = res * estimate_at 1 coords row p)
    ∧ (∀ (cfg : Config) (env : SimEnv),
      (scriptTrace cfg env).filterMap Event.contourField =
        [ p2pOf (estimate_on_grid (env.libRho : ℝ) (pipelineData cfg env).coords
            (pipelineData cfg env).I (calc_grid cfg.x_range cfg.y_range cfg.Nsamp))
        , p2pOf (estimate_on_grid (env.libRho : ℝ) (pipelineData cfg env).coords
            (pipelineData cfg env).I (calc_grid (-180, -130) (-50, 0) cfg.Nsamp))
        , p2pOf (estimate_on_grid (env.libRho : ℝ) (pipelineData cfg env).coords
            (pipelineData cfg env).I (calc_grid (-180, -130) (-165, -115) cfg.Nsamp)) ])
    ∧ (∀ (cfg : Config) (r : ℚ) (env : SimEnv),
      scriptTrace (withRho cfg r) env = scriptTrace cfg env)
    ∧ defaultConfig.rho = 7 / 2 := by
  refine ⟨?_, ?_, ?_, ?_, rfl⟩
  · intro res coords row p
    rw [estimate_at]
    exact sum_zipWith_eq_finsetSum _ coords row
  · intro res coords row p
    rw [estimate_at, estimate_at, sum_zipWith_eq_finsetSum, sum_zipWith_eq_finsetSum,
      Finset.mul_sum]
    refine Finset.sum_congr rfl (fun i _ => ?_)
    ring
  · intro cfg env
    cases h : env.cacheExists <;>
      simp [scriptTrace, simulatePhase, renderPhase, plot_contour, pipelineData, h,
        Event.contourField]
  · intro cfg r env
    rfl

/-- C4.  The field is recomputed independently for each panel: the trace
holds exactly three contour renders — one per panel, each with that
panel's own bounding rectangle — every one carries the per-axis sample
count `Nsamp` of the configuration (30 in the source), and each field is
the estimator applied afresh to the grid built from that panel's own
ranges, never a crop of a shared raster. -/
theorem C4_per_panel_recompute (env : SimEnv) :
    ((scriptTrace defaultConfig env).filterMap Event.contourMeta =
      [ (Panel.main, (-550, 250), (-200, 610), 30, 5)
      , (Panel.zoomSoma, (-180, -130), (-50, 0), 30, 5)
      , (Panel.zoomAxon, (-180, -130), (-165, -115), 30, 5) ])
    ∧ (∀ (cfg : Config),
      (scriptTrace cfg env).filterMap
          (fun e => (Event.contourMeta e).map (fun m => m.2.2.2.1)) =
        [cfg.Nsamp, cfg.Nsamp, cfg.Nsamp])
    ∧ (∀ (cfg : Config),
      (scriptTrace cfg env).filterMap Event.contourField =
        [ (calc_grid cfg.x_range cfg.y_range cfg.Nsamp)
        , (calc_grid (-180, -130) (-50, 0) cfg.Nsamp)
        , (calc_grid (-180, -130) (-165, -115) cfg.Nsamp) ].map
          (fun pts => p2pOf (estimate_on_grid (env.libRho : ℝ)
            (pipelineData cfg env).coords (pipelineData cfg env).I pts))) := by
  refine ⟨?_, ?_, ?_⟩
  · cases h : env.cacheExists <;>
      simp [scriptTrace, simulatePhase, renderPhase, plot_contour, h,
        Event.contourMeta, defaultConfig]
  · intro cfg
    cases h : env.cacheExists <;>
      simp [scriptTrace, simulatePhase, renderPhase, plot_contour, h,
        Event.contourMeta]
  · intro cfg
    cases h : env.cacheExists <;>
      simp [scriptTrace, simulatePhase, renderPhase, plot_contour, pipelineData, h,
        Event.contourField]

/-! ### Elementwise characterization of the axis-0 peak-to-peak reduction -/

/-- Folding `max` with a combined seed peels the first component off. -/
theorem foldl_max_out {α : Type} [LinearOrder α] :
    ∀ (l : List α) (a b : α), l.foldl max (max a b) = max a (l.foldl max b) := by
  intro l
  induction l with
  | nil => intro a b; rfl
  | cons c l ih =>
    intro a b
    simp only [List.foldl_cons]
    rw [max_assoc, ih]

/-- Folding `min` with a combined seed peels the first component off. -/
theorem foldl_min_out {α : Type} [LinearOrder α] :
    ∀ (l : List α) (a b : α), l.foldl min (min a b) = min a (l.foldl min b) := by
  intro l
  induction l with
  | nil => intro a b; rfl
  | cons c l ih =>
    intro a b
    simp only [List.foldl_cons]
    rw [min_assoc, ih]

/-- The running maximum of a nonempty tail splits off the head. -/
theorem aMax_cons {α : Type} [LinearOrder α] [Inhabited α] (x : α) (l : List α)
    (hl : l ≠ []) : aMax (x :: l) = max x (aMax l) := by
  cases l with
  | nil => exact absurd rfl hl
  | cons y l => simp only [aMax, List.foldl_cons]; exact foldl_max_out l x y

/-- The running minimum of a nonempty tail splits off the head. -/
theorem aMin_cons {α : Type} [LinearOrder α] [Inhabited α] (x : α) (l : List α)
    (hl : l ≠ []) : aMin (x :: l) = min x (aMin l) := by
  cases l with
  | nil => exact absurd rfl hl
  | cons y l => simp only [aMin, List.foldl_cons]; exact foldl_min_out l x y

/-- Entry `i` of the axis-0 maximum is the maximum of column `i`, whenever
every row reaches past position `i`. -/
theorem amax0_get {α : Type} [LinearOrder α] [Inhabited α] :
    ∀ (M : List (List α)), M ≠ [] → ∀ i : ℕ, (∀ r ∈ M, i < r.length) →
      (amax0 M).get? i = some (aMax (column M i)) := by
  intro M
  induction M with
  | nil => intro h; exact absurd rfl h
  | cons r rs ih =>
    intro _ i hlen
    cases rs with
    | nil =>
      have hr : i < r.length := hlen r (by simp)
      simp [amax0, column, aMax, List.get?_eq_getElem?, List.getElem?_eq_getElem hr,
        List.getD_eq_getElem r default hr]
    | cons r2 rs2 =>
      have hr : i < r.length := hlen r (by simp)
      have htail := ih (by simp) i (fun q hq => hlen q (List.mem_cons_of_mem _ hq))
      have hcol : column (r2 :: rs2) i ≠ [] := by simp [column]
      calc (amax0 (r :: r2 :: rs2)).get? i
          = (List.zipWith max r (amax0 (r2 :: rs2))).get? i := rfl
        _ = some (max (r.getD i default) (aMax (column (r2 :: rs2) i))) := by
            rw [List.get?_zipWith']
            rw [List.get?_eq_getElem?, List.getElem?_eq_getElem hr, htail]
            simp [List.getD, List.getElem?_eq_getElem hr]
        _ = some (aMax (column (r :: r2 :: rs2) i)) := by
            rw [show column (r :: r2 :: rs2) i = r.getD i default :: column (r2 :: rs2) i from rfl,
              aMax_cons _ _ hcol]

/-- Entry `i` of the axis-0 minimum is the minimum of column `i`, whenever
every row reaches past position `i`. -/
theorem amin0_get {α : Type} [LinearOrder α] [Inhabited α] :
    ∀ (M : List (List α)), M ≠ [] → ∀ i : ℕ, (∀ r ∈ M, i < r.length) →
      (amin0 M).get? i = some (aMin (column M i)) := by
  intro M
  induction M with
  | nil => intro h; exact absurd rfl h
  | cons r rs ih =>
    intro _ i hlen
    cases rs with
    | nil =>
      have hr : i < r.length := hlen r (by simp)
      simp [amin0, column, aMin, List.get?_eq_getElem?, List.getElem?_eq_getElem hr,
        List.getD_eq_getElem r default hr]
    | cons r2 rs2 =>
      have hr : i < r.length := hlen r (by simp)
      have htail := ih (by simp) i (fun q hq => hlen q (List.mem_cons_of_mem _ hq))
      have hcol : column (r2 :: rs2) i ≠ [] := by simp [column]
      calc (amin0 (r :: r2 :: rs2)).get? i
          = (List.zipWith min r (amin0 (r2 :: rs2))).get? i := rfl
        _ = some (min (r.getD i default) (aMin (column (r2 :: rs2) i))) := by
            rw [List.get?_zipWith']
            rw [List.get?_eq_getElem?, List.getElem?_eq_getElem hr, htail]
            simp [List.getD, List.getElem?_eq_getElem hr]
        _ = some (aMin (column (r :: r2 :: rs2) i)) := by
            rw [show column (r :: r2 :: rs2) i = r.getD i default :: column (r2 :: rs2) i from rfl,
              aMin_cons _ _ hcol]

/-- C5.  The scalar color-mapped onto segment `i` is its peak-to-peak
current — the maximum minus the minimum of column `i` over the time axis —
and the contoured field scalar is likewise the per-grid-point
peak-to-peak of the estimated potential over time: every morphology
render receives `p2pOf I` and every contour render receives `p2pOf` of
the time-by-grid estimate. -/
theorem C5_p2p_scalar :
    (∀ (α : Type) [LinearOrder α] [Sub α] [Inhabited α]
        (M : List (List α)) (i : ℕ), M ≠ [] → (∀ r ∈ M, i < r.length) →
      (p2pOf M).get? i = some (aMax (column M i) - aMin (column M i)))
    ∧ (∀ (cfg : Config) (env : SimEnv),
      (scriptTrace cfg env).filterMap
          (fun e => (Event.neuronArgs e).map (fun a => a.2.2)) =
        List.replicate 3 (p2pOf (pipelineData cfg env).I))
    ∧ (∀ (cfg : Config) (env : SimEnv),
      (scriptTrace cfg env).filterMap Event.contourField =
        [ calc_grid cfg.x_range cfg.y_range cfg.Nsamp
        , calc_grid (-180, -130) (-50, 0) cfg.Nsamp
        , calc_grid (-180, -130) (-165, -115) cfg.Nsamp ].map
          (fun pts => p2pOf (estimate_on_grid (env.libRho : ℝ)
            (pipelineData cfg env).coords (pipelineData cfg env).I pts))) := by
  refine ⟨?_, ?_, ?_⟩
  · intro α _ _ _ M i hM hlen
    rw [p2pOf, List.get?_zipWith', amax0_get M hM i hlen, amin0_get M hM i hlen]
    rfl
  · intro cfg env
    cases h : env.cacheExists <;>
      simp [scriptTrace, simulatePhase, renderPhase, plot_contour, pipelineData, h,
        Event.neuronArgs, List.replicate]
  · intro cfg env
    cases h : env.cacheExists <;>
      simp [scriptTrace, simulatePhase, renderPhase, plot_contour, pipelineData, h,
        Event.contourField]

/-- C5, witness: on the two-step, two-segment trace `[[1, 5], [3, 2]]` the
first peak-to-peak entry is the column reduction `max {1, 3} - min {1, 3}`,
which evaluates to `2`. -/
theorem C5_p2p_scalar_witness :
    (p2pOf ([[1, 5], [3, 2]] : List (List ℚ))).get? 0 = some 2 := by
  have h := C5_p2p_scalar.1 ℚ [[1, 5], [3, 2]] 0 (by simp) (by decide)
  rw [h]
  simp [column, aMax, aMin, List.getD, max_def, min_def]
  norm_num

/-- A small concrete environment for the draw-order counterexample: the
cache is present and holds one segment with a one-step trace. -/
def envC6 : SimEnv :=
  ⟨true, [], [], [], ⟨[⟨0, 0, 1, 0, 1, 1⟩], [12], [[1]]⟩, 1⟩

/-- C6, counterexample.  The render order of the soma zoom inset refutes
the claim that every panel draws its contour before its morphology: the
tagged render sequence (`true` marks a contour render, `false` a
morphology render) shows the soma-zoom morphology at position 2 and the
soma-zoom contour only at position 3. -/
theorem C6_draw_order_cex :
    (scriptTrace defaultConfig envC6).filterMap Event.drawTag =
      [ (Panel.main, true), (Panel.main, false)
      , (Panel.zoomSoma, false), (Panel.zoomSoma, true)
      , (Panel.zoomAxon, true), (Panel.zoomAxon, false) ] := by
  simp [scriptTrace, simulatePhase, renderPhase, plot_contour, envC6, Event.drawTag]

/-- C6, amended.  The main panel and the axon zoom inset draw the contour
field before the neuron morphology, but the soma zoom inset draws the
morphology first and its contour after it — whatever the configuration
and environment. -/
theorem C6_draw_order (cfg : Config) (env : SimEnv) :
    (scriptTrace cfg env).filterMap Event.drawTag =
      [ (Panel.main, true), (Panel.main, false)
      , (Panel.zoomSoma, false), (Panel.zoomSoma, true)
      , (Panel.zoomAxon, true), (Panel.zoomAxon, false) ] := by
  cases h : env.cacheExists <;>
    simp [scriptTrace, simulatePhase, renderPhase, plot_contour, h, Event.drawTag]

/-- The running minimum of a nonempty list whose elements are all equal to
`c` is `c`. -/
theorem aMin_all_eq {α : Type} [LinearOrder α] [Inhabited α] :
    ∀ (l : List α) (c : α), l ≠ [] → (∀ x ∈ l, x = c) → aMin l = c := by
  intro l
  induction l with
  | nil => intro c h; exact absurd rfl h
  | cons x xs ih =>
    intro c _ hall
    have hx : x = c := hall x (by simp)
    cases xs with
    | nil => simpa [aMin] using hx
    | cons y ys =>
      rw [aMin_cons x (y :: ys) (by simp),
        ih c (by simp) (fun z hz => hall z (List.mem_cons_of_mem _ hz)), hx, min_self]

/-- The running maximum of a nonempty list whose elements are all equal to
`c` is `c`. -/
theorem aMax_all_eq {α : Type} [LinearOrder α] [Inhabited α] :
    ∀ (l : List α) (c : α), l ≠ [] → (∀ x ∈ l, x = c) → aMax l = c := by
  intro l
  induction l with
  | nil => intro c h; exact absurd rfl h
  | cons x xs ih =>
    intro c _ hall
    have hx : x = c := hall x (by simp)
    cases xs with
    | nil => simpa [aMax] using hx
    | cons y ys =>
      rw [aMax_cons x (y :: ys) (by simp),
        ih c (by simp) (fun z hz => hall z (List.mem_cons_of_mem _ hz)), hx, max_self]

/-- C7.  When the field handed to the contour renderer is constant
everywhere — the all-zero field included — the renderer returns an empty
contour set and raises no failure: the degenerate log-spacing case is
guarded and skipped. -/
theorem C7_constant_field (fieldVals : List ℝ) (c : ℝ) (nc : ℕ)
    (hne : fieldVals ≠ []) (hconst : ∀ x ∈ fieldVals, x = c) :
    logcontour fieldVals nc = .ok [] := by
  rw [logcontour, if_pos]
  rw [aMin_all_eq fieldVals c hne hconst, aMax_all_eq fieldVals c hne hconst]

/-- C7, witness: the constant field `[2, 2, 2]` yields the empty contour
set without failing. -/
theorem C7_constant_field_witness :
    logcontour [2, 2, 2] 5 = .ok [] :=
  C7_constant_field [2, 2, 2] 2 5 (by simp) (by intro x hx; simpa using hx)

/-- C8.  The color normalization the script builds — anchored at the
minimum and maximum of the sample array — maps, for an array with minimum
1 and maximum 100, the input 1 to 0, the input 100 to 1, and the input 10
to one half (logarithmic scale). -/
theorem C8_lognorm_anchors (a : List ℚ) (h1 : aMin a = 1) (h100 : aMax a = 100) :
    logNormApply ⟨aMin a, aMax a⟩ 1 = 0
    ∧ logNormApply ⟨aMin a, aMax a⟩ 100 = 1
    ∧ logNormApply ⟨aMin a, aMax a⟩ 10 = 1 / 2 := by
  rw [h1, h100]
  have h10 : Real.log 10 ≠ 0 := ne_of_gt (Real.log_pos (by norm_num))
  have h100R : Real.log ((100 : ℚ) : ℝ) = 2 * Real.log 10 := by
    push_cast
    rw [show (100 : ℝ) = 10 ^ 2 by norm_num, Real.log_pow]
    push_cast
    ring
  refine ⟨?_, ?_, ?_⟩
  · simp [logNormApply]
  · rw [logNormApply]
    simp only [Rat.cast_one, Real.log_one, sub_zero]
    rw [div_self]
    rw [h100R]
    positivity
  · rw [logNormApply]
    simp only [Rat.cast_one, Real.log_one, sub_zero]
    rw [h100R]
    rw [show ((10 : ℚ) : ℝ) = (10 : ℝ) by norm_num]
    field_simp
    ring

/-- C8, witness: the sample array `[1, 10, 100]` has minimum 1 and maximum
100, and the normalization built from it sends 10 to one half. -/
theorem C8_lognorm_anchors_witness :
    logNormApply ⟨aMin [(1 : ℚ), 10, 100], aMax [(1 : ℚ), 10, 100]⟩ 10 = 1 / 2 :=
  (C8_lognorm_anchors [1, 10, 100]
    (by norm_num [aMin, min_def])
    (by norm_num [aMax, max_def])).2.2

/-- A concrete environment whose cache holds two segment records but a
current array with three columns — the lengths disagree. -/
def envC9 : SimEnv :=
  ⟨true, [], [], [],
   ⟨[⟨0, 0, 1, 0, 1, 1⟩, ⟨1, 0, 2, 0, 1, 1⟩], [12, 13], [[1, 2, 3], [4, 5, 6]]⟩, 1⟩

/-- C9, counterexample.  With two segments but three current samples the
pipeline reports no data-integrity error: the run completes normally and
every morphology render receives the mismatched pair — a coordinate array
of length 2 next to a scalar array of length 3, neither truncated nor
padded. -/
theorem C9_no_length_check_cex :
    ((pipelineData defaultConfig envC9).coords.length = 2
      ∧ (p2pOf (pipelineData defaultConfig envC9).I).length = 3)
    ∧ scriptRun defaultConfig envC9 = .ok (scriptTrace defaultConfig envC9)
    ∧ ((scriptTrace defaultConfig envC9).filterMap
        (fun e => (Event.neuronArgs e).map (fun a => (a.2.1.length, a.2.2.length))) =
      [(2, 3), (2, 3), (2, 3)]) := by
  refine ⟨⟨rfl, rfl⟩, rfl, ?_⟩
  simp [scriptTrace, simulatePhase, renderPhase, plot_contour, pipelineData, envC9,
    Event.neuronArgs, p2pOf, amax0, amin0]

/-- C9, amended.  The pipeline performs no length validation at all: the
run always completes without reporting any error, and every morphology
render receives the segment array and the peak-to-peak array exactly as
derived — unvalidated, untruncated and unpadded — whatever their
lengths. -/
theorem C9_no_length_check (cfg : Config) (env : SimEnv) :
    scriptRun cfg env = .ok (scriptTrace cfg env)
    ∧ ((scriptTrace cfg env).filterMap
        (fun e => (Event.neuronArgs e).map (fun a => (a.2.1, a.2.2))) =
      List.replicate 3 ((pipelineData cfg env).coords, p2pOf (pipelineData cfg env).I)) := by
  refine ⟨rfl, ?_⟩
  cases h : env.cacheExists <;>
    simp [scriptTrace, simulatePhase, renderPhase, plot_contour, pipelineData, h,
      Event.neuronArgs, List.replicate]

/-- Every time sample surviving the boolean window mask lies strictly
inside the open window. -/
theorem mem_maskT {a b x : ℚ} {t : List ℚ} (hx : x ∈ maskT a b t) :
    a < x ∧ x < b := by
  rw [maskT, List.mem_filter] at hx
  exact of_decide_eq_true hx.2

/-- C10.  Whenever the cache is regenerated, the persisted time vector is
the restriction of the simulated one to the open window `(10, 25)` and the
persisted current array keeps exactly the corresponding rows, so every
time sample written to the cache lies strictly inside the window; the
compute path renders from exactly that restricted data, and the load path
renders data inside the window whenever the cache it reads was produced by
a pipeline write. -/
theorem C10_time_window (env : SimEnv) :
    (∀ w ∈ (scriptTrace defaultConfig env).filterMap Event.writePayload,
      w.2.2 = maskT 10 25 env.simT ∧ w.2.1 = maskRows 10 25 env.simT env.simI
        ∧ ∀ x ∈ w.2.2, 10 < x ∧ x < 25)
    ∧ (env.cacheExists = false →
        (pipelineData defaultConfig env).t = maskT 10 25 env.simT
        ∧ (pipelineData defaultConfig env).I = maskRows 10 25 env.simT env.simI
        ∧ ∀ x ∈ (pipelineData defaultConfig env).t, 10 < x ∧ x < 25)
    ∧ (∀ ts : List ℚ, env.cacheExists = true → env.cached.t = maskT 10 25 ts →
        ∀ x ∈ (pipelineData defaultConfig env).t, 10 < x ∧ x < 25) := by
  have hd0 : defaultConfig.t0 = 10 := rfl
  have hd1 : defaultConfig.t1 = 25 := rfl
  refine ⟨?_, ?_, ?_⟩
  · intro w hw
    cases h : env.cacheExists
    · rw [scriptTrace] at hw
      simp [simulatePhase, renderPhase, plot_contour, h, Event.writePayload] at hw
      subst hw
      exact ⟨rfl, rfl, fun x hx => mem_maskT hx⟩
    · rw [scriptTrace] at hw
      simp [simulatePhase, renderPhase, plot_contour, h, Event.writePayload] at hw
  · intro h
    refine ⟨by simp [pipelineData, simulatePhase, h, defaultConfig],
      by simp [pipelineData, simulatePhase, h, defaultConfig], ?_⟩
    intro x hx
    simp [pipelineData, simulatePhase, h] at hx
    exact mem_maskT hx
  · intro ts h hts x hx
    simp [pipelineData, simulatePhase, h, hts] at hx
    exact mem_maskT hx

/-- A concrete environment on the compute path: the cache is absent and
the simulator returns time samples 5, 12 and 30. -/
def envC10 : SimEnv :=
  ⟨false, [⟨0, 0, 1, 0, 1, 1⟩], [5, 12, 30], [[0], [1], [2]], ⟨[], [], []⟩, 1⟩

/-- C10, witness: on the compute path with simulated times 5, 12 and 30
the rendered time vector is the masked one, and its member 12 lies
strictly inside the window. -/
theorem C10_time_window_witness :
    (pipelineData defaultConfig envC10).t = maskT 10 25 [5, 12, 30]
    ∧ (10 < (12 : ℚ) ∧ (12 : ℚ) < 25) := by
  have h := (C10_time_window envC10).2.1 rfl
  refine ⟨h.1, h.2.2 12 ?_⟩
  rw [h.1]
  norm_num [maskT, envC10]

end Hunter
